import Mathlib

/-
  Shallow embedding of the query-planning core of the KipSQL repository:
  the binder (src/binder/select.rs, src/binder/aggregate.rs), the column
  catalog (src/catalog/column.rs) and the column-pruning optimizer rule
  (src/optimizer/rule/column_pruning.rs).

  Types that live in repository files not present under src/ (the
  expression algebra, the logical-plan operators, the sort field, the
  table catalog, joins_nullable) are modelled from the specification;
  each such definition carries a doc comment saying so.
-/

namespace KipSQL

/-- Modelled from the spec: the closed LogicalType enumeration of section 3
(src/types is not under src/). -/
inductive LogicalType where
  | invalid
  | sqlNull
  | boolean
  | tinyint
  | smallint
  | integer
  | bigint
  | utinyint
  | usmallint
  | uinteger
  | ubigint
  | float
  | double
  | varchar
  | date
  | dateTime
  | decimal
  deriving DecidableEq, Repr

/-- Modelled from the spec: DataValue is a tagged union over logical types,
each variant carrying an optional payload as the null representation
(src/types/value.rs is not under src/). Only the variants exercised by the
claims are included; Int32 and Int64 are the ones bind_limit inspects. -/
inductive DataValue where
  | boolean : Option Bool → DataValue
  | int16 : Option Int → DataValue
  | int32 : Option Int → DataValue
  | int64 : Option Int → DataValue
  | utf8 : Option String → DataValue
  deriving DecidableEq, Repr

/-- ColumnDesc, from src/catalog/column.rs lines 67-71. -/
structure ColumnDesc where
  column_datatype : LogicalType
  is_primary : Bool
  deriving DecidableEq, Repr

/-- ColumnCatalog, from src/catalog/column.rs lines 10-17. Equality is
structural across all fields, as the derived Hash/Eq/PartialEq there. -/
structure ColumnCatalog where
  id : Nat
  name : String
  table_name : Option String
  nullable : Bool
  desc : ColumnDesc
  deriving DecidableEq, Repr

/-- Modelled from the spec: aggregate kinds of the AggCall variant
(src/expression is not under src/). -/
inductive AggKind where
  | count
  | sum
  | avg
  | min
  | max
  deriving DecidableEq, Repr

/-- Modelled from the spec: unary operators (src/expression is not under
src/). -/
inductive UnaryOperator where
  | plus
  | minus
  | not
  deriving DecidableEq, Repr

/-- Modelled from the spec: the expression-level binary operators used by
the embedded code; And is the one bind_join_constraint uses to build the
residual conjunction (src/expression is not under src/). -/
inductive BinaryOperator where
  | plus
  | minus
  | gt
  | lt
  | eq
  | and
  | or
  deriving DecidableEq, Repr

/-- Modelled from the spec: ScalarExpression, the central tagged variant of
section 3 (src/expression is not under src/). Field order of aggCall
follows the destructuring in src/binder/aggregate.rs lines 102-107:
kind, args, ty, distinct. -/
inductive ScalarExpression where
  | constant : DataValue → ScalarExpression
  | columnRef : ColumnCatalog → ScalarExpression
  | inputRef : Nat → LogicalType → ScalarExpression
  | alias : ScalarExpression → String → ScalarExpression
  | typeCast : ScalarExpression → LogicalType → ScalarExpression
  | isNull : ScalarExpression → ScalarExpression
  | unary : UnaryOperator → ScalarExpression → LogicalType → ScalarExpression
  | binary : BinaryOperator → ScalarExpression → ScalarExpression → LogicalType → ScalarExpression
  | aggCall : AggKind → List ScalarExpression → LogicalType → Bool → ScalarExpression
  deriving Repr

mutual

/-- Structural equality on expressions, mirroring the derived PartialEq of
the source type (deriving does not handle the nested List argument of
aggCall, so the instance is written out). -/
def ScalarExpression.beq : ScalarExpression → ScalarExpression → Bool
  | .constant v, .constant w => v == w
  | .columnRef c, .columnRef c' => c == c'
  | .inputRef i t, .inputRef i' t' => i == i' && t == t'
  | .alias e a, .alias e' a' => ScalarExpression.beq e e' && a == a'
  | .typeCast e t, .typeCast e' t' => ScalarExpression.beq e e' && t == t'
  | .isNull e, .isNull e' => ScalarExpression.beq e e'
  | .unary o e t, .unary o' e' t' => o == o' && ScalarExpression.beq e e' && t == t'
  | .binary o l r t, .binary o' l' r' t' =>
      o == o' && ScalarExpression.beq l l' && ScalarExpression.beq r r' && t == t'
  | .aggCall k a t d, .aggCall k' a' t' d' =>
      k == k' && ScalarExpression.beqList a a' && t == t' && d == d'
  | _, _ => false

/-- Pointwise structural equality on expression lists (aggCall arguments). -/
def ScalarExpression.beqList : List ScalarExpression → List ScalarExpression → Bool
  | [], [] => true
  | x :: xs, y :: ys => ScalarExpression.beq x y && ScalarExpression.beqList xs ys
  | _, _ => false

end

instance : BEq ScalarExpression := ⟨ScalarExpression.beq⟩

/-- The binder error type, from the variants surfaced in section 6 and used
by src/binder/select.rs and src/binder/aggregate.rs. Messages are kept as
plain strings; the source interpolates the offending expression into some
of them, which the embedding does not reproduce. -/
inductive BindError where
  | InvalidTable : String → BindError
  | InvalidTableName : List String → BindError
  | InvalidColumn : String → BindError
  | AggMiss : String → BindError
  | Unsupported : String → BindError
  deriving DecidableEq, Repr

/-- Join types bound by bind_join in src/binder/select.rs lines 235-242. -/
inductive JoinType where
  | inner
  | left
  | right
  | full
  | cross
  deriving DecidableEq, Repr

/-- Modelled from the spec: TableCatalog names a table and owns an ordered
list of columns, exposing contains_column (src/catalog/table.rs is not
under src/). -/
structure TableCatalog where
  name : String
  columns : List ColumnCatalog
  deriving Repr

/-- Modelled from the spec: contains_column checks a column of that name
exists in the table. -/
def TableCatalog.contains_column (t : TableCatalog) (n : String) : Bool :=
  t.columns.any fun c => c.name == n

/-- Modelled from the spec: SortField with fields expr, descending,
nulls_first, in the order the spec writes the struct literal in section 4.3
step 7 (src/planner/operator/sort.rs is not under src/). -/
structure SortField where
  expr : ScalarExpression
  descending : Bool
  nulls_first : Bool
  deriving Repr

/-- Modelled from the spec: SortField::new fills the three fields
positionally. -/
def SortField.new (e : ScalarExpression) (d : Bool) (nf : Bool) : SortField :=
  ⟨e, d, nf⟩

/-- Modelled from the spec: the scan operator carries the table name and
the projected column expressions; only the fields read and written by the
embedded code are kept (src/planner/operator/scan.rs is not under src/). -/
structure ScanOperator where
  table_name : String
  columns : List ScalarExpression
  deriving Repr

/-- Project operator; its columns field is the select list
(used in src/binder/select.rs lines 290-301 and
src/optimizer/rule/column_pruning.rs lines 52-56). -/
structure ProjectOperator where
  columns : List ScalarExpression
  deriving Repr

/-- Modelled from the spec: the filter operator carries the bound predicate
and the having flag (src/planner/operator/filter.rs is not under src/). -/
structure FilterOperator where
  predicate : ScalarExpression
  having : Bool
  deriving Repr

/-- Sort operator, per src/binder/select.rs lines 303-315. -/
structure SortOperator where
  sort_fields : List SortField
  limit : Option Nat
  deriving Repr

/-- Modelled from the spec: the limit operator carries the limit and offset
counts (src/planner/operator/limit.rs is not under src/). The concrete
scenario of spec section 8 fixes the field meaning:
LIMIT 1 OFFSET 2 yields Limit with offset 2 and limit 1. -/
structure LimitOperator where
  offset : Nat
  limit : Nat
  deriving Repr

/-- Aggregate operator carrying agg_calls and groupby_exprs, per
src/binder/aggregate.rs lines 19-26. -/
structure AggregateOperator where
  agg_calls : List ScalarExpression
  groupby_exprs : List ScalarExpression
  deriving Repr

/-- Join condition produced by bind_join_constraint,
src/binder/select.rs lines 393-425. -/
inductive JoinCondition where
  | On : List (ScalarExpression × ScalarExpression) → Option ScalarExpression → JoinCondition
  | NoCondition : JoinCondition
  deriving Repr

/-- Join operator data: condition and join type
(children live in the plan node; the source field name `on` is a Lean
keyword, hence `on_condition`). -/
structure JoinOperatorData where
  on_condition : JoinCondition
  join_type : JoinType
  deriving Repr

/-- Operator variants of the logical plan, per spec section 3 and the uses
in src/binder/select.rs and src/optimizer/rule/column_pruning.rs. -/
inductive Operator where
  | dummy
  | scan : ScanOperator → Operator
  | project : ProjectOperator → Operator
  | filter : FilterOperator → Operator
  | sort : SortOperator → Operator
  | limit : LimitOperator → Operator
  | aggregate : AggregateOperator → Operator
  | join : JoinOperatorData → Operator
  deriving Repr

/-- LogicalPlan: an operator with child plans, per spec section 3. -/
inductive LogicalPlan where
  | mk : Operator → List LogicalPlan → LogicalPlan
  deriving Repr

/-- The operator of a plan node. -/
def LogicalPlan.operator : LogicalPlan → Operator
  | .mk op _ => op

/-- The children of a plan node. -/
def LogicalPlan.childrens : LogicalPlan → List LogicalPlan
  | .mk _ cs => cs

/-- Modelled from the spec: LimitOperator::new(offset, limit, children)
wraps the child plan in a Limit node; argument order follows the call in
src/binder/select.rs line 351 together with the spec scenario
LIMIT 1 OFFSET 2 giving offset 2 and limit 1. -/
def LimitOperator.new (offset : Nat) (limit : Nat) (children : LogicalPlan) : LogicalPlan :=
  .mk (.limit ⟨offset, limit⟩) [children]

/-- Binder context fields used by the embedded code, per spec section 3:
the two independent monotonic input-ref counters and the collected
agg_calls and group_by_exprs (src/binder/mod.rs is not under src/). -/
structure BinderContext where
  agg_index : Nat
  group_index : Nat
  agg_calls : List ScalarExpression
  group_by_exprs : List ScalarExpression
  deriving Repr

/-- The AST expression shape consumed by extract_join_keys
(src/binder/select.rs lines 438-505): binary operations are inspected
structurally, every other expression form is opaque to it and is only ever
passed to bind_expr, so those forms are collapsed into an atom with an
identifying tag. -/
inductive AstExpr where
  | binaryOp : AstExpr → BinaryOperator → AstExpr → AstExpr
  | atom : Nat → AstExpr
  deriving DecidableEq, Repr

/-- ORDER BY item shape, per sqlparser OrderByExpr destructured in
src/binder/aggregate.rs lines 70-74. -/
structure OrderByExpr where
  expr : AstExpr
  asc : Option Bool
  nulls_first : Option Bool
  deriving Repr

/-- OFFSET clause shape: bind_limit only reads its value expression
(src/binder/select.rs line 338). -/
structure OffsetExpr where
  value : AstExpr
  deriving Repr

/-- Modelled from the spec: has_agg_call answers whether any AggCall occurs
anywhere in the expression tree (section 4.1; src/expression is not under
src/). An aggCall node answers immediately, so its argument list needs no
traversal. -/
def has_agg_call : ScalarExpression → Bool
  | .aggCall _ _ _ _ => true
  | .typeCast e _ => has_agg_call e
  | .isNull e => has_agg_call e
  | .unary _ e _ => has_agg_call e
  | .alias e _ => has_agg_call e
  | .binary _ l r _ => has_agg_call l || has_agg_call r
  | .constant _ => false
  | .columnRef _ => false
  | .inputRef _ _ => false

/-- Modelled from the spec: unpack_alias strips one layer of Alias
(section 4.1; src/expression is not under src/). -/
def unpack_alias : ScalarExpression → ScalarExpression
  | .alias e _ => e
  | e => e

/-- visit_column_agg_expr, from src/binder/aggregate.rs lines 91-135:
a pre-order rewrite that replaces each AggCall by an InputRef carrying the
next value of the AggCall input-ref counter and the AggCall result type,
pushes the original AggCall onto ctx.agg_calls, recurses into
TypeCast/IsNull/Unary/Alias and both sides of Binary, and leaves
Constant/ColumnRef/InputRef untouched. The context's input_ref_index
(src/binder/mod.rs, not under src/) is modelled from the spec as a
monotonic counter whose next value it returns, starting at 0 for a fresh
binder (spec section 8 scenario: the first replacement is InputRef number
0). -/
def visit_column_agg_expr (ctx : BinderContext) : ScalarExpression → BinderContext × ScalarExpression
  | .aggCall kind args ty dist =>
      ({ ctx with
          agg_index := ctx.agg_index + 1,
          agg_calls := ctx.agg_calls ++ [.aggCall kind args ty dist] },
        .inputRef ctx.agg_index ty)
  | .typeCast e ty =>
      let r := visit_column_agg_expr ctx e
      (r.1, .typeCast r.2 ty)
  | .isNull e =>
      let r := visit_column_agg_expr ctx e
      (r.1, .isNull r.2)
  | .unary op e ty =>
      let r := visit_column_agg_expr ctx e
      (r.1, .unary op r.2 ty)
  | .alias e a =>
      let r := visit_column_agg_expr ctx e
      (r.1, .alias r.2 a)
  | .binary op l r ty =>
      let rl := visit_column_agg_expr ctx l
      let rr := visit_column_agg_expr rl.1 r
      (rr.1, .binary op rl.2 rr.2 ty)
  | .constant v => (ctx, .constant v)
  | .columnRef c => (ctx, .columnRef c)
  | .inputRef i t => (ctx, .inputRef i t)

/-- extract_select_aggregate, from src/binder/aggregate.rs lines 28-36:
applies visit_column_agg_expr to every select item in order. The source
returns a Result but never errs, so the embedding is total. -/
def extract_select_aggregate (ctx : BinderContext) : List ScalarExpression → BinderContext × List ScalarExpression
  | [] => (ctx, [])
  | e :: rest =>
      let r := visit_column_agg_expr ctx e
      let rr := extract_select_aggregate r.1 rest
      (rr.1, r.2 :: rr.2)

/-- The maximal AggCall subexpressions of an expression in pre-order,
left to right; aggregates nested inside another aggregate's arguments are
not listed, matching the traversal of visit_column_agg_expr, which treats
an AggCall node as terminal. -/
def preorderAggCalls : ScalarExpression → List ScalarExpression
  | .aggCall kind args ty dist => [.aggCall kind args ty dist]
  | .typeCast e _ => preorderAggCalls e
  | .isNull e => preorderAggCalls e
  | .unary _ e _ => preorderAggCalls e
  | .alias e _ => preorderAggCalls e
  | .binary _ l r _ => preorderAggCalls l ++ preorderAggCalls r
  | .constant _ => []
  | .columnRef _ => []
  | .inputRef _ _ => []

/-- No AggCall occurs anywhere in the expression. -/
def noAggCall : ScalarExpression → Bool
  | .aggCall _ _ _ _ => false
  | .typeCast e _ => noAggCall e
  | .isNull e => noAggCall e
  | .unary _ e _ => noAggCall e
  | .alias e _ => noAggCall e
  | .binary _ l r _ => noAggCall l && noAggCall r
  | .constant _ => true
  | .columnRef _ => true
  | .inputRef _ _ => true

/-- Claim-side rewrite for C2, following the claim's words: each AggCall
encountered in pre-order is replaced in place by an InputRef whose ty
equals the AggCall's ty and whose index is the next value of the monotonic
counter, threading only that counter. -/
def replaceAggsSpec (i : Nat) : ScalarExpression → Nat × ScalarExpression
  | .aggCall _ _ ty _ => (i + 1, .inputRef i ty)
  | .typeCast e ty =>
      let r := replaceAggsSpec i e
      (r.1, .typeCast r.2 ty)
  | .isNull e =>
      let r := replaceAggsSpec i e
      (r.1, .isNull r.2)
  | .unary op e ty =>
      let r := replaceAggsSpec i e
      (r.1, .unary op r.2 ty)
  | .alias e a =>
      let r := replaceAggsSpec i e
      (r.1, .alias r.2 a)
  | .binary op l r ty =>
      let rl := replaceAggsSpec i l
      let rr := replaceAggsSpec rl.1 r
      (rr.1, .binary op rl.2 rr.2 ty)
  | .constant v => (i, .constant v)
  | .columnRef c => (i, .columnRef c)
  | .inputRef j t => (i, .inputRef j t)

/-- extract_having_orderby_aggregate, from src/binder/aggregate.rs lines
52-89: binds the HAVING expression (if any) and applies the aggregate
rewrite to it; binds each ORDER BY item, applies the aggregate rewrite,
and builds SortField::new(expr, asc.map_or(true, not), nulls_first
.map_or(false, id)). bind_expr (src/binder/expr.rs, not under src/) is
abstracted as the oracle bindE. -/
def extract_having_orderby_aggregate (bindE : AstExpr → ScalarExpression) (ctx : BinderContext)
    (having : Option AstExpr) (orderbys : List OrderByExpr) :
    BinderContext × (Option ScalarExpression × Option (List SortField)) :=
  let hRes : BinderContext × Option ScalarExpression :=
    match having with
    | some h =>
        let r := visit_column_agg_expr ctx (bindE h)
        (r.1, some r.2)
    | none => (ctx, none)
  let oRes : BinderContext × Option (List SortField) :=
    if orderbys.isEmpty then (hRes.1, none)
    else
      let r := orderbys.foldl
        (fun acc ob =>
          let v := visit_column_agg_expr acc.1 (bindE ob.expr)
          (v.1, acc.2 ++ [SortField.new v.2
            (ob.asc.elim true fun a => !a)
            (ob.nulls_first.elim false fun f => f)]))
        (hRes.1, ([] : List SortField))
      (r.1, some r.2)
  (oRes.1, (hRes.2, oRes.2))

/-- validate_having_orderby, from src/binder/aggregate.rs lines 250-298:
everything is accepted while group_by_exprs is empty; otherwise AggCall
must occur in group_by_exprs or agg_calls, ColumnRef and Alias must occur
in group_by_exprs, TypeCast/IsNull/Unary/Binary recurse, Constant and
InputRef are accepted. Both error branches use the same message template,
modelled as one constant string (the source interpolates the expression). -/
def validate_having_orderby (ctx : BinderContext) (e : ScalarExpression) : Except BindError Unit :=
  if ctx.group_by_exprs.isEmpty then .ok () else
  match e with
  | .aggCall kind args ty dist =>
      if ctx.group_by_exprs.contains (.aggCall kind args ty dist)
          || ctx.agg_calls.contains (.aggCall kind args ty dist) then .ok ()
      else .error (.AggMiss "column must appear in the GROUP BY clause or be used in an aggregate function")
  | .columnRef c =>
      if ctx.group_by_exprs.contains (.columnRef c) then .ok ()
      else .error (.AggMiss "column must appear in the GROUP BY clause or be used in an aggregate function")
  | .alias inner a =>
      if ctx.group_by_exprs.contains (.alias inner a) then .ok ()
      else .error (.AggMiss "column must appear in the GROUP BY clause or be used in an aggregate function")
  | .typeCast inner _ => validate_having_orderby ctx inner
  | .isNull inner => validate_having_orderby ctx inner
  | .unary _ inner _ => validate_having_orderby ctx inner
  | .binary _ l r _ =>
      match validate_having_orderby ctx l with
      | .error err => .error err
      | .ok _ => validate_having_orderby ctx r
  | .constant _ => .ok ()
  | .inputRef _ _ => .ok ()

/-- Claim-side acceptance predicate for C9, following the claim's case
analysis for a non-empty grouping set. -/
def hoAccepted (ctx : BinderContext) : ScalarExpression → Bool
  | .aggCall kind args ty dist =>
      ctx.group_by_exprs.contains (.aggCall kind args ty dist)
        || ctx.agg_calls.contains (.aggCall kind args ty dist)
  | .columnRef c => ctx.group_by_exprs.contains (.columnRef c)
  | .alias inner a => ctx.group_by_exprs.contains (.alias inner a)
  | .typeCast inner _ => hoAccepted ctx inner
  | .isNull inner => hoAccepted ctx inner
  | .unary _ inner _ => hoAccepted ctx inner
  | .binary _ l r _ => hoAccepted ctx l && hoAccepted ctx r
  | .constant _ => true
  | .inputRef _ _ => true

/-- Whether an expression is an Alias whose alias name equals a, the
comparison used for GROUP BY alias resolution in src/binder/aggregate.rs
lines 151-161. -/
def isAliasNamed (a : String) : ScalarExpression → Bool
  | .alias _ a' => a == a'
  | _ => false

/-- The group_raw_exprs list built by validate_groupby_illegal_column,
src/binder/aggregate.rs lines 147-169, over the already-bound GROUP BY
expressions (bind_expr lives in src/binder/expr.rs, not under src/, so the
embedding receives its outputs): an Alias is resolved to the select item
carrying the same alias name and that item is pushed, an Alias matching no
select item contributes nothing, and every other expression is pushed as
itself. -/
def groupRawExprs (select_items bound_groupby : List ScalarExpression) : List ScalarExpression :=
  bound_groupby.foldl
    (fun acc e =>
      match e with
      | .alias _ a =>
          match select_items.find? (isAliasNamed a) with
          | some item => acc ++ [item]
          | none => acc
      | _ => acc ++ [e])
    []

/-- The select-item loop of validate_groupby_illegal_column,
src/binder/aggregate.rs lines 172-186: items with an aggregate call are
skipped; the first aggregate-free item missing from group_raw_exprs
raises AggMiss. -/
def checkSelectItems (raw : List ScalarExpression) : List ScalarExpression → Except BindError Unit
  | [] => .ok ()
  | e :: rest =>
      if has_agg_call e then checkSelectItems raw rest
      else if raw.contains e then checkSelectItems raw rest
      else .error (.AggMiss "must appear in the GROUP BY clause or be used in an aggregate function")

/-- validate_groupby_illegal_column, src/binder/aggregate.rs lines 142-195,
taking the already-bound GROUP BY expressions. After the select-item loop
the source checks the hash set of group_raw_exprs from which every
aggregate-free select item was removed; its residue is modelled by
filtering group_raw_exprs with the same membership test, which is empty
exactly when the set is. -/
def validate_groupby_illegal_column (select_items bound_groupby : List ScalarExpression) : Except BindError Unit :=
  let raw := groupRawExprs select_items bound_groupby
  match checkSelectItems raw select_items with
  | .error e => .error e
  | .ok _ =>
      let residue := raw.filter fun g => !(select_items.any fun e => !has_agg_call e && e == g)
      if residue.isEmpty then .ok ()
      else .error (.AggMiss "In the GROUP BY clause the field must be in the select clause")

/-- The failure condition claimed by C1, following the claim's words:
some select item containing no aggregate call is absent from the bound
GROUP BY expressions (alias references resolved first), or some GROUP BY
expression corresponds to no select item. -/
def c1ClaimFails (select_items bound_groupby : List ScalarExpression) : Bool :=
  (select_items.any fun e =>
      !has_agg_call e && !(groupRawExprs select_items bound_groupby).contains e)
    || (bound_groupby.any fun g =>
        match g with
        | .alias _ a => !(select_items.any (isAliasNamed a))
        | _ => !(select_items.contains g))

/-- Modelled from the spec: joins_nullable maps a join type to the pair
(left_force_nullable, right_force_nullable) per the table of section 4.3
step 3 (src/execution/executor/dql/join.rs is not under src/). -/
def joins_nullable : JoinType → Bool × Bool
  | .inner => (false, false)
  | .left => (false, true)
  | .right => (true, false)
  | .full => (true, true)
  | .cross => (false, false)

/-- Insert into an association list with HashMap semantics: update the
entry if the key is present, append otherwise. Iteration order of the
source HashMap is irrelevant because extract_select_join only performs
keyed lookups on it. -/
def insertAssoc (m : List (String × Bool)) (k : String) (v : Bool) : List (String × Bool) :=
  match m with
  | [] => [(k, v)]
  | (k', v') :: rest =>
      if k' == k then (k', v) :: rest else (k', v') :: insertAssoc rest k v

/-- The loop of extract_select_join over the ordered bind_table entries,
src/binder/select.rs lines 363-375: joined tables are inserted with their
right force-nullable flag and the left flag of the last joined entry is
remembered; a table without a join option is remembered as the left root.
The state is (map, left_table_force_nullable, left_table). -/
def buildForceMap : List (String × Option JoinType) →
    List (String × Bool) × Bool × Option String →
    List (String × Bool) × Bool × Option String
  | [], st => st
  | (name, some jt) :: rest, (m, _, lt) =>
      buildForceMap rest (insertAssoc m name (joins_nullable jt).2, (joins_nullable jt).1, lt)
  | (name, none) :: rest, (m, lf, _) =>
      buildForceMap rest (m, lf, some name)

/-- The complete table_force_nullable map of extract_select_join,
src/binder/select.rs lines 363-379: after the loop, the remembered left
root is inserted with the last-observed left flag. -/
def forceNullableMap (tables : List (String × Option JoinType)) : List (String × Bool) :=
  let st := buildForceMap tables ([], false, none)
  match st.2.2 with
  | some name => insertAssoc st.1 name st.2.1
  | none => st.1

/-- The per-item rewrite of extract_select_join, src/binder/select.rs
lines 381-390: a top-level ColumnRef whose table name is a key of the map
is replaced by a fresh ColumnCatalog identical except for nullable. The
source unwraps the column's table_name, which the binder always populates
for bound columns; a column without one is left unchanged here. -/
def rewriteSelectItem (m : List (String × Bool)) (e : ScalarExpression) : ScalarExpression :=
  match e with
  | .columnRef col =>
      match col.table_name with
      | some t =>
          match m.lookup t with
          | some b => .columnRef { col with nullable := b }
          | none => e
      | none => e
  | _ => e

/-- extract_select_join, src/binder/select.rs lines 354-391: a no-op while
fewer than two tables are bound; otherwise every select item is rewritten
through the force-nullable map. bind_table is the ordered table map of the
binder context, carried here as the (name, join option) pairs the function
reads. -/
def extract_select_join (tables : List (String × Option JoinType))
    (select_items : List ScalarExpression) : List ScalarExpression :=
  if tables.length < 2 then select_items
  else select_items.map (rewriteSelectItem (forceNullableMap tables))

/-- The left root recorded by the loop of extract_select_join: the last
table in iteration order that carries no join option. -/
def lastUnjoined (tables : List (String × Option JoinType)) : Option String :=
  tables.foldl (fun acc p => match p.2 with | none => some p.1 | some _ => acc) none

/-- The last-observed left force-nullable flag: the left component of
joins_nullable for the last joined table in iteration order, false when no
table is joined. -/
def lastLeftFlag (tables : List (String × Option JoinType)) : Bool :=
  tables.foldl (fun acc p => match p.2 with | some jt => (joins_nullable jt).1 | none => acc) false

/-- extract_join_keys, src/binder/select.rs lines 438-505, abstracting
bind_expr as the oracle bindE (the source can propagate bind_expr errors,
which the oracle model makes total). An Eq between two bound ColumnRefs is
oriented by catalog membership of the column names and pushed to accum;
And recurses into both sides; everything else is rebound as a whole and
pushed to accum_filter. -/
def extract_join_keys (bindE : AstExpr → ScalarExpression)
    (left_schema right_schema : TableCatalog) :
    AstExpr → List (ScalarExpression × ScalarExpression) → List ScalarExpression →
    List (ScalarExpression × ScalarExpression) × List ScalarExpression
  | .binaryOp l .eq r, accum, accum_filter =>
      let lb := bindE l
      let rb := bindE r
      match lb, rb with
      | .columnRef lc, .columnRef rc =>
          if left_schema.contains_column lc.name && right_schema.contains_column rc.name then
            (accum ++ [(.columnRef lc, .columnRef rc)], accum_filter)
          else if left_schema.contains_column rc.name && right_schema.contains_column lc.name then
            (accum ++ [(.columnRef rc, .columnRef lc)], accum_filter)
          else
            (accum, accum_filter ++ [bindE (.binaryOp l .eq r)])
      | _, _ => (accum, accum_filter ++ [bindE (.binaryOp l .eq r)])
  | .binaryOp l .and r, accum, accum_filter =>
      let res := extract_join_keys bindE left_schema right_schema l accum accum_filter
      extract_join_keys bindE left_schema right_schema r res.1 res.2
  | .binaryOp l op r, accum, accum_filter =>
      (accum, accum_filter ++ [bindE (.binaryOp l op r)])
  | .atom n, accum, accum_filter =>
      (accum, accum_filter ++ [bindE (.atom n)])

/-- The residual-filter reduction of bind_join_constraint,
src/binder/select.rs lines 409-416: Iterator::reduce folds the tail onto
the head with a Boolean And, giving none on an empty list. -/
def reduceAndFilter : List ScalarExpression → Option ScalarExpression
  | [] => none
  | f :: rest =>
      some (rest.foldl (fun acc e => .binary .and acc e .boolean) f)

/-- bind_join_constraint for an ON constraint, src/binder/select.rs lines
393-425 (the other constraint forms hit unimplemented in the source and
are not modelled): extract the equi-keys and residual filters from empty
accumulators and package them as JoinCondition::On. -/
def bind_join_constraint (bindE : AstExpr → ScalarExpression)
    (left_table right_table : TableCatalog) (onExpr : AstExpr) : JoinCondition :=
  let res := extract_join_keys bindE left_table right_table onExpr [] []
  .On res.1 (reduceAndFilter res.2)

/-- The bound-checking block that bind_limit writes out twice, once for
LIMIT and once for OFFSET (src/binder/select.rs lines 325-335 and 337-347,
two verbatim copies of the same match): an absent bound keeps the default
0, a present bound must bind to a non-null Int32 or Int64 constant
strictly greater than zero and is cast to usize, and everything else
raises InvalidColumn with the source's message. -/
def boundValue (bindE : AstExpr → ScalarExpression) : Option AstExpr → Except BindError Nat
  | none => .ok 0
  | some e =>
      match bindE e with
      | .constant dv =>
          match dv with
          | .int32 (some v) =>
              if 0 < v then .ok v.toNat
              else .error (.InvalidColumn "invalid limit expression.")
          | .int64 (some v) =>
              if 0 < v then .ok v.toNat
              else .error (.InvalidColumn "invalid limit expression.")
          | _ => .error (.InvalidColumn "invalid limit expression.")
      | _ => .error (.InvalidColumn "invalid limit expression.")

/-- bind_limit, src/binder/select.rs lines 317-352: the LIMIT bound is
checked first, then the OFFSET bound (only its value expression is read),
and the child plan is wrapped via LimitOperator::new(offset, limit,
children). -/
def bind_limit (bindE : AstExpr → ScalarExpression) (children : LogicalPlan)
    (limit_expr : Option AstExpr) (offset_expr : Option OffsetExpr) : Except BindError LogicalPlan :=
  match boundValue bindE limit_expr with
  | .error err => .error err
  | .ok limit =>
      match boundValue bindE (offset_expr.map (·.value)) with
      | .error err => .error err
      | .ok offset => .ok (LimitOperator.new offset limit children)

/-- The claim-side acceptance of a LIMIT or OFFSET bound for C7 and C10:
an absent bound is accepted with default 0; a present bound is accepted
with its value exactly when it binds to a non-null Int32 or Int64 constant
strictly greater than zero. -/
def acceptedBound (bindE : AstExpr → ScalarExpression) : Option AstExpr → Option Nat
  | none => some 0
  | some e =>
      match bindE e with
      | .constant (.int32 (some v)) => if 0 < v then some v.toNat else none
      | .constant (.int64 (some v)) => if 0 < v then some v.toNat else none
      | _ => none

mutual

/-- Query AST shape consumed by bind_query, per spec section 6:
with clause, body, order-by list, limit and offset. The select statement
payload is a type parameter because bind_select is exercised through an
oracle; the with-clause payload is Option Unit because bind_query never
reads its contents (src/binder/select.rs lines 36-38). -/
inductive Query (σ : Type) where
  | mk : Option Unit → SetExpr σ → List OrderByExpr → Option AstExpr → Option OffsetExpr → Query σ

/-- Query body shapes handled by bind_query, src/binder/select.rs lines
40-44: a select statement or a nested query. The remaining SetExpr forms
hit unimplemented in the source and are not modelled. -/
inductive SetExpr (σ : Type) where
  | select : σ → SetExpr σ
  | query : Query σ → SetExpr σ

end

/-- The with clause of a query. -/
def Query.withClause {σ : Type} : Query σ → Option Unit
  | .mk w _ _ _ _ => w

/-- The same query with its with clause removed. -/
def Query.dropWith {σ : Type} : Query σ → Query σ
  | .mk _ body ob lim off => .mk none body ob lim off

mutual

/-- bind_query, src/binder/select.rs lines 35-54, with bind_select and
bind_expr abstracted as oracles: the with clause is examined but nothing
is done with it (the source body is a TODO comment); the body is bound;
the plan is wrapped by bind_limit when a limit or offset is present. -/
def bind_query {σ : Type} (bindSelectF : σ → List OrderByExpr → Except BindError LogicalPlan)
    (bindE : AstExpr → ScalarExpression) : Query σ → Except BindError LogicalPlan
  | .mk _w body order_by limit offset =>
      match bind_query_body bindSelectF bindE body order_by with
      | .error e => .error e
      | .ok plan =>
          if limit.isSome || offset.isSome then bind_limit bindE plan limit offset
          else .ok plan

/-- The body dispatch of bind_query, src/binder/select.rs lines 40-44:
a select is bound with the outer query's order-by list; a nested query is
bound recursively (its own order-by applies, the outer one is dropped). -/
def bind_query_body {σ : Type} (bindSelectF : σ → List OrderByExpr → Except BindError LogicalPlan)
    (bindE : AstExpr → ScalarExpression) : SetExpr σ → List OrderByExpr → Except BindError LogicalPlan
  | .select s, order_by => bindSelectF s order_by
  | .query q, _ => bind_query bindSelectF bindE q

end

/-- Whether an expression is a ColumnRef after unwrapping one alias layer,
the filter predicate of PushProjectIntoScan,
src/optimizer/rule/column_pruning.rs line 54. -/
def isColumnRefAfterUnalias (e : ScalarExpression) : Bool :=
  match unpack_alias e with
  | .columnRef _ => true
  | _ => false

/-- PushProjectIntoScan::apply, src/optimizer/rule/column_pruning.rs lines
41-66, as the net plan-tree rewrite. The rule fires on a Project node
whose single child is a Scan (the pattern at lines 14-22 requires exactly
that child list); the scan's columns are replaced by the project's columns
filtered to those that are ColumnRef after unwrapping one alias layer, and
the project node is removed so the rewritten scan takes its place. The
HepGraph remove_node and replace_node calls (src/optimizer/heuristic, not
under src/) are modelled from the spec by their net effect, which the
repository's own test test_project_into_table_scan exhibits: the optimized
plan's root becomes the pruned Scan with no surviving Project above it. -/
def pushProjectIntoScanApply (plan : LogicalPlan) : LogicalPlan :=
  match plan with
  | .mk (.project project_op) [.mk (.scan scan_op) cs] =>
      .mk (.scan { scan_op with
        columns := project_op.columns.filter isColumnRefAfterUnalias }) cs
  | other => other

/-- Whether a binder step returning Result of Unit succeeded. -/
def isOkUnit : Except BindError Unit → Bool
  | .ok _ => true
  | .error _ => false

/-- A concrete empty plan node used by concrete instances below. -/
def dummyPlan : LogicalPlan := .mk .dummy []

/- ------------------------------------------------------------------ -/
/- Theorems.                                                          -/
/- ------------------------------------------------------------------ -/

theorem boundValue_eq_acceptedBound (bindE : AstExpr → ScalarExpression) (x : Option AstExpr) :
    boundValue bindE x =
      match acceptedBound bindE x with
      | some n => .ok n
      | none => .error (.InvalidColumn "invalid limit expression.") := by
  cases x with
  | none => rfl
  | some e =>
    simp only [boundValue, acceptedBound]
    cases bindE e <;>
      first
        | rfl
        | (rename_i dv
           cases dv <;>
             first
               | rfl
               | (rename_i v
                  cases v <;>
                    first
                      | rfl
                      | (rename_i n
                         by_cases h : 0 < n <;> simp [h])))

/-- C7: bind_limit succeeds exactly when each present LIMIT or OFFSET
expression binds to a non-null Int32 or Int64 constant strictly greater
than zero; otherwise it raises InvalidColumn, and on success the plan is
wrapped in a Limit operator carrying the given limit and offset (absent
bounds default to 0). -/
theorem c7_bind_limit (bindE : AstExpr → ScalarExpression) (children : LogicalPlan)
    (limit_expr : Option AstExpr) (offset_expr : Option OffsetExpr) :
    bind_limit bindE children limit_expr offset_expr =
      match acceptedBound bindE limit_expr,
            acceptedBound bindE (offset_expr.map OffsetExpr.value) with
      | some l, some o => .ok (LimitOperator.new o l children)
      | _, _ => .error (.InvalidColumn "invalid limit expression.") := by
  simp only [bind_limit, boundValue_eq_acceptedBound]
  cases acceptedBound bindE limit_expr <;>
    cases acceptedBound bindE (offset_expr.map OffsetExpr.value) <;> rfl

/-- C10: when exactly one of LIMIT and OFFSET is present, bind_limit sets
the absent bound to 0 in the produced Limit operator: only OFFSET n gives
Limit with limit 0 and offset n, only LIMIT n gives Limit with limit n and
offset 0. -/
theorem c10_bind_limit_defaults (bindE : AstExpr → ScalarExpression) (children : LogicalPlan)
    (e : AstExpr) (n : Nat) (h : acceptedBound bindE (some e) = some n) :
    bind_limit bindE children none (some ⟨e⟩) = .ok (LimitOperator.new n 0 children)
    ∧ bind_limit bindE children (some e) none = .ok (LimitOperator.new 0 n children) := by
  have hnone : acceptedBound bindE none = some 0 := rfl
  constructor <;> simp [bind_limit, boundValue_eq_acceptedBound, h, hnone]

theorem c10_bind_limit_defaults_witness :
    bind_limit (fun _ => .constant (.int32 (some 5))) dummyPlan none (some ⟨.atom 0⟩)
        = .ok (LimitOperator.new 5 0 dummyPlan)
    ∧ bind_limit (fun _ => .constant (.int32 (some 5))) dummyPlan (some (.atom 0)) none
        = .ok (LimitOperator.new 0 5 dummyPlan) :=
  c10_bind_limit_defaults (fun _ => .constant (.int32 (some 5))) dummyPlan (.atom 0) 5 (by decide)

/-- C9: validate_having_orderby accepts everything when group_by_exprs is
empty, and otherwise accepts exactly per the structural predicate
hoAccepted (AggCall in the grouping set or collected agg calls, ColumnRef
and Alias in the grouping set, recursion through TypeCast/IsNull/Unary and
both sides of Binary, Constant and InputRef always); every rejection is an
AggMiss. The ScalarExpression variants listed exhaust the type, so there
is no further case. -/
theorem c9_validate_having_orderby (ctx : BinderContext) :
    ∀ e : ScalarExpression,
      validate_having_orderby ctx e =
        if ctx.group_by_exprs.isEmpty || hoAccepted ctx e then .ok ()
        else .error (.AggMiss "column must appear in the GROUP BY clause or be used in an aggregate function")
  | .constant v => by simp [validate_having_orderby, hoAccepted]
  | .inputRef i t => by simp [validate_having_orderby, hoAccepted]
  | .columnRef c => by
      simp only [validate_having_orderby, hoAccepted]
      by_cases h : ctx.group_by_exprs.isEmpty <;> simp [h]
  | .alias e a => by
      simp only [validate_having_orderby, hoAccepted]
      by_cases h : ctx.group_by_exprs.isEmpty <;> simp [h]
  | .aggCall k args t d => by
      simp only [validate_having_orderby, hoAccepted]
      by_cases h : ctx.group_by_exprs.isEmpty <;> simp [h]
  | .typeCast e t => by
      have ih := c9_validate_having_orderby ctx e
      simp only [validate_having_orderby, hoAccepted]
      by_cases h : ctx.group_by_exprs.isEmpty <;> simp [h, ih, validate_having_orderby]
  | .isNull e => by
      have ih := c9_validate_having_orderby ctx e
      simp only [validate_having_orderby, hoAccepted]
      by_cases h : ctx.group_by_exprs.isEmpty <;> simp [h, ih, validate_having_orderby]
  | .unary o e t => by
      have ih := c9_validate_having_orderby ctx e
      simp only [validate_having_orderby, hoAccepted]
      by_cases h : ctx.group_by_exprs.isEmpty <;> simp [h, ih, validate_having_orderby]
  | .binary o l r t => by
      have ihl := c9_validate_having_orderby ctx l
      have ihr := c9_validate_having_orderby ctx r
      simp only [validate_having_orderby, hoAccepted]
      by_cases h : ctx.group_by_exprs.isEmpty
      · simp [h]
      · by_cases hl : hoAccepted ctx l <;> by_cases hr : hoAccepted ctx r <;>
          simp [h, hl, hr, ihl, ihr]

/-- C3: the SortField built for an ORDER BY item carries
descending = asc.map_or(true, not): with the asc flag absent descending is
true (the claim and the spec say false, exhibiting the bug at that
failing input), with asc = true it is false, with asc = false it is true;
nulls_first defaults to false and otherwise copies the flag. -/
theorem c3_orderby_sort_flags :
    extract_having_orderby_aggregate (fun _ => .columnRef ⟨1, "c1", some "t1", false, ⟨.integer, false⟩⟩)
        ⟨0, 0, [], []⟩ none
        [⟨.atom 0, none, none⟩, ⟨.atom 0, some true, none⟩, ⟨.atom 0, some false, some true⟩]
      = (⟨0, 0, [], []⟩, (none,
          some [⟨.columnRef ⟨1, "c1", some "t1", false, ⟨.integer, false⟩⟩, true, false⟩,
                ⟨.columnRef ⟨1, "c1", some "t1", false, ⟨.integer, false⟩⟩, false, false⟩,
                ⟨.columnRef ⟨1, "c1", some "t1", false, ⟨.integer, false⟩⟩, true, true⟩])) := rfl

/-- C6 amended: bind_query ignores a WITH clause entirely (the source only
holds a TODO comment there), so binding a query equals binding the same
query with the WITH clause removed; in particular no Unsupported error is
raised for WITH. -/
theorem c6_bind_query_ignores_with {σ : Type}
    (bindSelectF : σ → List OrderByExpr → Except BindError LogicalPlan)
    (bindE : AstExpr → ScalarExpression) (q : Query σ) :
    bind_query bindSelectF bindE q = bind_query bindSelectF bindE q.dropWith := by
  cases q
  rfl

/-- C6 counterexample: a query that carries a WITH clause binds
successfully to a plan instead of failing with Unsupported. -/
theorem c6_with_clause_counterexample :
    bind_query (σ := Unit) (fun _ _ => .ok dummyPlan) (fun _ => .constant (.int32 (some 1)))
        (.mk (some ()) (.select ()) [] none none) = .ok dummyPlan := rfl

/-- C8: on a Project node whose single child is a Scan, the rule rewrites
the scan's column list to exactly the project columns that are ColumnRef
after unwrapping one alias layer, in their original order (an order-
preserving sublist whose membership is characterized by the filter
predicate), and removes the Project node so the rewritten Scan takes its
place. -/
theorem c8_push_project_into_scan (project_op : ProjectOperator) (scan_op : ScanOperator)
    (cs : List LogicalPlan) :
    pushProjectIntoScanApply (.mk (.project project_op) [.mk (.scan scan_op) cs])
      = .mk (.scan { scan_op with columns := project_op.columns.filter isColumnRefAfterUnalias }) cs
    ∧ (project_op.columns.filter isColumnRefAfterUnalias).Sublist project_op.columns
    ∧ ∀ e : ScalarExpression,
        e ∈ project_op.columns.filter isColumnRefAfterUnalias
          ↔ e ∈ project_op.columns ∧ isColumnRefAfterUnalias e = true :=
  ⟨rfl, List.filter_sublist _, fun _ => List.mem_filter⟩

theorem checkSelectItems_ok (raw : List ScalarExpression) :
    ∀ items : List ScalarExpression,
      isOkUnit (checkSelectItems raw items)
        = items.all fun e => has_agg_call e || raw.contains e
  | [] => rfl
  | e :: rest => by
      simp only [checkSelectItems, List.all_cons]
      by_cases h1 : has_agg_call e
      · simp [h1, checkSelectItems_ok raw rest]
      · by_cases h2 : raw.contains e
        · simp [h1, h2, checkSelectItems_ok raw rest]
        · simp [h1, h2, isOkUnit]

theorem filter_isEmpty_eq_all {α : Type} (p : α → Bool) :
    ∀ l : List α, (l.filter p).isEmpty = l.all fun x => !p x
  | [] => rfl
  | x :: xs => by
      by_cases h : p x <;> simp [h, List.filter_cons, filter_isEmpty_eq_all p xs]

/-- C1 amended: with the GROUP BY expressions already bound,
validate_groupby_illegal_column succeeds exactly when every select item
containing no aggregate call occurs among the alias-resolved bound GROUP
BY expressions (group_raw_exprs) and every member of group_raw_exprs
equals some aggregate-free select item. Compared with the claim, a GROUP
BY alias matching no select-item alias is dropped rather than failing,
and a GROUP BY entry that corresponds only to aggregate-containing select
items fails rather than being accepted. -/
theorem c1_validate_groupby_amended (select_items bound_groupby : List ScalarExpression) :
    isOkUnit (validate_groupby_illegal_column select_items bound_groupby) =
      ((select_items.all fun e =>
          has_agg_call e || (groupRawExprs select_items bound_groupby).contains e)
        && ((groupRawExprs select_items bound_groupby).all fun g =>
              select_items.any fun e => !has_agg_call e && e == g)) := by
  simp only [validate_groupby_illegal_column]
  cases hc : checkSelectItems (groupRawExprs select_items bound_groupby) select_items with
  | error err =>
      have hck := checkSelectItems_ok (groupRawExprs select_items bound_groupby) select_items
      rw [hc] at hck
      simp only [isOkUnit] at hck ⊢
      rw [← hck]
      simp
  | ok u =>
      have hck := checkSelectItems_ok (groupRawExprs select_items bound_groupby) select_items
      rw [hc] at hck
      simp only [isOkUnit] at hck
      rw [← hck]
      simp only [Bool.true_and]
      rw [filter_isEmpty_eq_all]
      simp only [Bool.not_not]
      by_cases hr : ((groupRawExprs select_items bound_groupby).all fun g =>
          select_items.any fun e => !has_agg_call e && e == g) <;>
        simp [hr, isOkUnit]

/-- C1 counterexample: a select list whose only item is an aggregate call
that also appears verbatim as the (bound) GROUP BY expression. Per the
claim no failure may occur, since no select item lacks an aggregate call
and the GROUP BY expression equals a select item; the code raises AggMiss
because the aggregate-containing select item never removes the entry from
the group set. -/
theorem c1_validate_groupby_counterexample :
    validate_groupby_illegal_column
        [.aggCall .count [.columnRef ⟨0, "a", some "t", false, ⟨.integer, false⟩⟩] .integer false]
        [.aggCall .count [.columnRef ⟨0, "a", some "t", false, ⟨.integer, false⟩⟩] .integer false]
      = .error (.AggMiss "In the GROUP BY clause the field must be in the select clause")
    ∧ c1ClaimFails
        [.aggCall .count [.columnRef ⟨0, "a", some "t", false, ⟨.integer, false⟩⟩] .integer false]
        [.aggCall .count [.columnRef ⟨0, "a", some "t", false, ⟨.integer, false⟩⟩] .integer false]
      = false :=
  ⟨rfl, rfl⟩

theorem replaceAggsSpec_fst : ∀ (i : Nat) (e : ScalarExpression),
    (replaceAggsSpec i e).1 = i + (preorderAggCalls e).length
  | _, .constant _ => rfl
  | _, .columnRef _ => rfl
  | _, .inputRef _ _ => rfl
  | _, .aggCall _ _ _ _ => rfl
  | i, .typeCast e _ => by
      simp [replaceAggsSpec, preorderAggCalls, replaceAggsSpec_fst i e]
  | i, .isNull e => by
      simp [replaceAggsSpec, preorderAggCalls, replaceAggsSpec_fst i e]
  | i, .unary _ e _ => by
      simp [replaceAggsSpec, preorderAggCalls, replaceAggsSpec_fst i e]
  | i, .alias e _ => by
      simp [replaceAggsSpec, preorderAggCalls, replaceAggsSpec_fst i e]
  | i, .binary _ l r _ => by
      simp [replaceAggsSpec, preorderAggCalls, replaceAggsSpec_fst i l,
        replaceAggsSpec_fst (i + (preorderAggCalls l).length) r, List.length_append]
      omega

theorem replaceAggsSpec_noAgg : ∀ (i : Nat) (e : ScalarExpression),
    noAggCall (replaceAggsSpec i e).2 = true
  | _, .constant _ => rfl
  | _, .columnRef _ => rfl
  | _, .inputRef _ _ => rfl
  | _, .aggCall _ _ _ _ => rfl
  | i, .typeCast e _ => by
      simp [replaceAggsSpec, noAggCall, replaceAggsSpec_noAgg i e]
  | i, .isNull e => by
      simp [replaceAggsSpec, noAggCall, replaceAggsSpec_noAgg i e]
  | i, .unary _ e _ => by
      simp [replaceAggsSpec, noAggCall, replaceAggsSpec_noAgg i e]
  | i, .alias e _ => by
      simp [replaceAggsSpec, noAggCall, replaceAggsSpec_noAgg i e]
  | i, .binary _ l r _ => by
      simp [replaceAggsSpec, noAggCall, replaceAggsSpec_noAgg i l,
        replaceAggsSpec_noAgg (replaceAggsSpec i l).1 r]

theorem visit_column_agg_expr_eq : ∀ (ctx : BinderContext) (e : ScalarExpression),
    visit_column_agg_expr ctx e =
      ({ ctx with agg_index := ctx.agg_index + (preorderAggCalls e).length,
                  agg_calls := ctx.agg_calls ++ preorderAggCalls e },
       (replaceAggsSpec ctx.agg_index e).2)
  | ctx, .constant v => by
      simp [visit_column_agg_expr, preorderAggCalls, replaceAggsSpec]
  | ctx, .columnRef c => by
      simp [visit_column_agg_expr, preorderAggCalls, replaceAggsSpec]
  | ctx, .inputRef j t => by
      simp [visit_column_agg_expr, preorderAggCalls, replaceAggsSpec]
  | ctx, .aggCall k a t d => by
      simp [visit_column_agg_expr, preorderAggCalls, replaceAggsSpec]
  | ctx, .typeCast e t => by
      simp [visit_column_agg_expr, preorderAggCalls, replaceAggsSpec,
        visit_column_agg_expr_eq ctx e]
  | ctx, .isNull e => by
      simp [visit_column_agg_expr, preorderAggCalls, replaceAggsSpec,
        visit_column_agg_expr_eq ctx e]
  | ctx, .unary o e t => by
      simp [visit_column_agg_expr, preorderAggCalls, replaceAggsSpec,
        visit_column_agg_expr_eq ctx e]
  | ctx, .alias e a => by
      simp [visit_column_agg_expr, preorderAggCalls, replaceAggsSpec,
        visit_column_agg_expr_eq ctx e]
  | ctx, .binary o l r t => by
      simp only [visit_column_agg_expr, preorderAggCalls, replaceAggsSpec,
        visit_column_agg_expr_eq ctx l,
        visit_column_agg_expr_eq
          ({ ctx with agg_index := ctx.agg_index + (preorderAggCalls l).length,
                      agg_calls := ctx.agg_calls ++ preorderAggCalls l }) r,
        replaceAggsSpec_fst]
      simp [List.length_append, List.append_assoc, Nat.add_assoc]

theorem extract_select_aggregate_calls : ∀ (ctx : BinderContext) (items : List ScalarExpression),
    (extract_select_aggregate ctx items).1.agg_calls
      = ctx.agg_calls ++ (items.map preorderAggCalls).flatten
  | ctx, [] => by simp [extract_select_aggregate]
  | ctx, e :: rest => by
      simp [extract_select_aggregate, visit_column_agg_expr_eq ctx e,
        extract_select_aggregate_calls _ rest, List.append_assoc]

theorem extract_select_aggregate_noAgg : ∀ (ctx : BinderContext) (items : List ScalarExpression),
    ((extract_select_aggregate ctx items).2.all noAggCall) = true
  | _, [] => rfl
  | ctx, e :: rest => by
      simp [extract_select_aggregate, visit_column_agg_expr_eq ctx e, List.all_cons,
        replaceAggsSpec_noAgg, extract_select_aggregate_noAgg _ rest]

/-- C2: the aggregate-extraction rewrite replaces each maximal AggCall met
in pre-order by an InputRef carrying the AggCall's ty and the successive
values of the monotonic AggCall counter (replaceAggsSpec), appends the
original AggCalls to ctx.agg_calls in visitation order exactly once per
occurrence, advances the counter by their number, and leaves no AggCall
in any rewritten expression; over a whole select list every resulting
item, hence the final Project column list, is AggCall-free. -/
theorem c2_aggregate_extraction :
    (∀ (ctx : BinderContext) (e : ScalarExpression),
        visit_column_agg_expr ctx e =
          ({ ctx with agg_index := ctx.agg_index + (preorderAggCalls e).length,
                      agg_calls := ctx.agg_calls ++ preorderAggCalls e },
            (replaceAggsSpec ctx.agg_index e).2)
        ∧ noAggCall (visit_column_agg_expr ctx e).2 = true)
    ∧ (∀ (ctx : BinderContext) (items : List ScalarExpression),
        (extract_select_aggregate ctx items).1.agg_calls
            = ctx.agg_calls ++ (items.map preorderAggCalls).flatten
        ∧ ((extract_select_aggregate ctx items).2.all noAggCall) = true) :=
  ⟨fun ctx e =>
    ⟨visit_column_agg_expr_eq ctx e,
     by rw [visit_column_agg_expr_eq ctx e]; exact replaceAggsSpec_noAgg ctx.agg_index e⟩,
   fun ctx items =>
    ⟨extract_select_aggregate_calls ctx items, extract_select_aggregate_noAgg ctx items⟩⟩

theorem lookup_insertAssoc_self : ∀ (m : List (String × Bool)) (k : String) (v : Bool),
    (insertAssoc m k v).lookup k = some v
  | [], k, v => by simp [insertAssoc, List.lookup]
  | (k', v') :: rest, k, v => by
      by_cases h : k' == k
      · have he : k' = k := by simpa using h
        subst he
        simp [insertAssoc, List.lookup]
      · have hne : ¬(k == k') := by
          intro hkk
          exact h (by simpa using (by simpa using hkk : k = k').symm)
        simp only [insertAssoc, h]
        simp [List.lookup, hne, lookup_insertAssoc_self rest k v]

theorem lookup_insertAssoc_ne : ∀ (m : List (String × Bool)) (k : String) (v : Bool) (k' : String),
    k' ≠ k → (insertAssoc m k v).lookup k' = m.lookup k'
  | [], k, v, k', h => by
      simp [insertAssoc, List.lookup, beq_false_of_ne h]
  | (k₀, v₀) :: rest, k, v, k', h => by
      by_cases h₀ : k₀ == k
      · have he : k₀ = k := by simpa using h₀
        subst he
        simp [insertAssoc, List.lookup, beq_false_of_ne h]
      · simp only [insertAssoc, h₀]
        by_cases h₁ : k' == k₀
        · simp [List.lookup, h₁]
        · simp [List.lookup, h₁, lookup_insertAssoc_ne rest k v k' h]

theorem buildForceMap_lookup_preserve :
    ∀ (ts : List (String × Option JoinType)) (m : List (String × Bool)) (lf : Bool)
      (lt : Option String) (k : String),
      (∀ jt : JoinType, (k, some jt) ∉ ts) →
      (buildForceMap ts (m, lf, lt)).1.lookup k = m.lookup k
  | [], _, _, _, _, _ => rfl
  | (n, some jt) :: rest, m, lf, lt, k, h => by
      have hne : k ≠ n := by
        intro he
        exact h jt (by simp [he])
      simp only [buildForceMap]
      rw [buildForceMap_lookup_preserve rest _ _ _ k
        (fun jt' hm => h jt' (List.mem_cons_of_mem _ hm))]
      exact lookup_insertAssoc_ne m n (joins_nullable jt).2 k hne
  | (n, none) :: rest, m, lf, lt, k, h => by
      simp only [buildForceMap]
      exact buildForceMap_lookup_preserve rest _ _ _ k
        (fun jt' hm => h jt' (List.mem_cons_of_mem _ hm))

theorem buildForceMap_lookup_joined :
    ∀ (ts : List (String × Option JoinType)) (m : List (String × Bool)) (lf : Bool)
      (lt : Option String) (k : String) (jt : JoinType),
      (ts.map Prod.fst).Nodup → (k, some jt) ∈ ts →
      (buildForceMap ts (m, lf, lt)).1.lookup k = some (joins_nullable jt).2
  | [], _, _, _, _, _, _, hm => absurd hm (List.not_mem_nil _)
  | (n, j) :: rest, m, lf, lt, k, jt, hnd, hm => by
      have hnd' : (rest.map Prod.fst).Nodup := (List.nodup_cons.mp (by simpa using hnd)).2
      have hn : n ∉ rest.map Prod.fst := (List.nodup_cons.mp (by simpa using hnd)).1
      rcases List.mem_cons.mp hm with hhead | htail
      · have hnk : n = k := by
          have := congrArg Prod.fst hhead.symm
          simpa using this
        have hj : j = some jt := by
          have := congrArg Prod.snd hhead.symm
          simpa using this
        subst hnk
        subst hj
        simp only [buildForceMap]
        rw [buildForceMap_lookup_preserve rest _ _ _ n
          (fun jt' hmem => hn (by exact List.mem_map_of_mem Prod.fst hmem))]
        exact lookup_insertAssoc_self m n (joins_nullable jt).2
      · cases j with
        | some j' =>
            simp only [buildForceMap]
            exact buildForceMap_lookup_joined rest _ _ _ k jt hnd' htail
        | none =>
            simp only [buildForceMap]
            exact buildForceMap_lookup_joined rest _ _ _ k jt hnd' htail

theorem buildForceMap_snd :
    ∀ (ts : List (String × Option JoinType)) (m : List (String × Bool)) (lf : Bool)
      (lt : Option String),
      (buildForceMap ts (m, lf, lt)).2.1
          = ts.foldl (fun acc p => match p.2 with | some jt => (joins_nullable jt).1 | none => acc) lf
      ∧ (buildForceMap ts (m, lf, lt)).2.2
          = ts.foldl (fun acc p => match p.2 with | none => some p.1 | some _ => acc) lt
  | [], _, _, _ => ⟨rfl, rfl⟩
  | (n, some jt) :: rest, m, lf, lt => by
      simpa [buildForceMap, List.foldl_cons] using buildForceMap_snd rest _ _ _
  | (n, none) :: rest, m, lf, lt => by
      simpa [buildForceMap, List.foldl_cons] using buildForceMap_snd rest _ _ _

theorem lastUnjoined_mem_aux :
    ∀ (ts : List (String × Option JoinType)) (acc : Option String) (t : String),
      ts.foldl (fun acc p => match p.2 with | none => some p.1 | some _ => acc) acc = some t →
      (t, (none : Option JoinType)) ∈ ts ∨ acc = some t
  | [], _, _, h => .inr h
  | (n, some j) :: rest, acc, t, h => by
      rcases lastUnjoined_mem_aux rest acc t (by simpa [List.foldl_cons] using h) with hm | ha
      · exact .inl (List.mem_cons_of_mem _ hm)
      · exact .inr ha
  | (n, none) :: rest, acc, t, h => by
      rcases lastUnjoined_mem_aux rest (some n) t (by simpa [List.foldl_cons] using h) with hm | ha
      · exact .inl (List.mem_cons_of_mem _ hm)
      · have : n = t := by simpa using ha
        subst this
        exact .inl (List.mem_cons_self _ _)

theorem forceNullableMap_lookup_root (tables : List (String × Option JoinType)) (t : String)
    (hlast : lastUnjoined tables = some t) :
    (forceNullableMap tables).lookup t = some (lastLeftFlag tables) := by
  have hsnd := buildForceMap_snd tables [] false none
  rcases hbf : buildForceMap tables ([], false, none) with ⟨m, lf, lt⟩
  rw [hbf] at hsnd
  have hlf : lf = tables.foldl
      (fun acc p => match p.2 with | some jt => (joins_nullable jt).1 | none => acc) false :=
    hsnd.1
  have hlt : lt = some t := by
    have h2 : lt = tables.foldl
        (fun acc p => match p.2 with | none => some p.1 | some _ => acc) none := hsnd.2
    exact h2.trans hlast
  subst hlt
  unfold forceNullableMap
  rw [hbf]
  show (insertAssoc m t lf).lookup t = some (lastLeftFlag tables)
  rw [lookup_insertAssoc_self]
  rw [hlf]
  rfl

theorem forceNullableMap_lookup_joined (tables : List (String × Option JoinType))
    (k : String) (jt : JoinType) (hnd : (tables.map Prod.fst).Nodup)
    (hm : (k, some jt) ∈ tables) :
    (forceNullableMap tables).lookup k = some (joins_nullable jt).2 := by
  have hj := buildForceMap_lookup_joined tables [] false none k jt hnd hm
  have hsnd := buildForceMap_snd tables [] false none
  rcases hbf : buildForceMap tables ([], false, none) with ⟨m, lf, lt⟩
  rw [hbf] at hj
  have hlt : lt = tables.foldl
      (fun acc p => match p.2 with | none => some p.1 | some _ => acc) none := by
    have h2 := hsnd.2
    rw [hbf] at h2
    exact h2
  unfold forceNullableMap
  rw [hbf]
  cases lt with
  | none =>
      show List.lookup k m = some (joins_nullable jt).2
      exact hj
  | some rootName =>
      have hlast : lastUnjoined tables = some rootName := hlt.symm
      have hne : k ≠ rootName := by
        intro he
        subst he
        rcases lastUnjoined_mem_aux tables none k hlast with hmem | habs
        · have := List.inj_on_of_nodup_map hnd hm hmem (by rfl)
          simpa using congrArg Prod.snd this
        · exact Option.noConfusion habs
      show (insertAssoc m rootName lf).lookup k = some (joins_nullable jt).2
      rw [lookup_insertAssoc_ne m rootName lf k hne]
      exact hj

/-- C4: with at least two bound tables, extract_select_join maps the
select list through the force-nullable table map, replacing each top-level
ColumnRef whose table name is a key by a fresh ColumnCatalog identical in
every field except nullable; under distinct table names the map assigns a
joined table the right component of joins_nullable for its join type
(Inner/Cross false-false, Left false-true, Right true-false, Full
true-true) and the un-joined left-root table the last-observed left
component; with fewer than two tables the select list is unchanged. -/
theorem c4_extract_select_join (tables : List (String × Option JoinType))
    (items : List ScalarExpression) :
    (tables.length < 2 → extract_select_join tables items = items)
    ∧ (2 ≤ tables.length →
        extract_select_join tables items
          = items.map (rewriteSelectItem (forceNullableMap tables)))
    ∧ ((tables.map Prod.fst).Nodup →
        ∀ (t : String) (jt : JoinType), (t, some jt) ∈ tables →
          (forceNullableMap tables).lookup t = some (joins_nullable jt).2)
    ∧ (∀ t : String, lastUnjoined tables = some t →
        (forceNullableMap tables).lookup t = some (lastLeftFlag tables))
    ∧ (∀ (m : List (String × Bool)) (col : ColumnCatalog) (t : String) (b : Bool),
        col.table_name = some t → m.lookup t = some b →
        rewriteSelectItem m (.columnRef col) = .columnRef { col with nullable := b })
    ∧ (∀ (m : List (String × Bool)) (col : ColumnCatalog) (t : String),
        col.table_name = some t → m.lookup t = none →
        rewriteSelectItem m (.columnRef col) = .columnRef col)
    ∧ (∀ (m : List (String × Bool)) (e : ScalarExpression),
        (∀ c : ColumnCatalog, e ≠ .columnRef c) → rewriteSelectItem m e = e) := by
  refine ⟨?_, ?_, ?_, ?_, ?_, ?_, ?_⟩
  · intro h
    simp [extract_select_join, h]
  · intro h
    have : ¬ tables.length < 2 := by omega
    simp [extract_select_join, this]
  · intro hnd t jt hm
    exact forceNullableMap_lookup_joined tables t jt hnd hm
  · intro t hlast
    exact forceNullableMap_lookup_root tables t hlast
  · intro m col t b hcol hlook
    simp [rewriteSelectItem, hcol, hlook]
  · intro m col t hcol hlook
    simp [rewriteSelectItem, hcol, hlook]
  · intro m e he
    cases e <;> try rfl
    rename_i c
    exact absurd rfl (he c)

theorem c4_extract_select_join_witness :
    extract_select_join [("t1", none), ("t2", some .left)]
        [.columnRef ⟨1, "x", some "t1", false, ⟨.integer, false⟩⟩,
         .columnRef ⟨2, "y", some "t2", false, ⟨.integer, false⟩⟩]
      = [.columnRef ⟨1, "x", some "t1", false, ⟨.integer, false⟩⟩,
         .columnRef ⟨2, "y", some "t2", true, ⟨.integer, false⟩⟩]
    ∧ (forceNullableMap [("t1", none), ("t2", some .left)]).lookup "t2" = some true
    ∧ (forceNullableMap [("t1", none), ("t2", some .left)]).lookup "t1" = some false := by
  have h := c4_extract_select_join [("t1", none), ("t2", some .left)]
    [.columnRef ⟨1, "x", some "t1", false, ⟨.integer, false⟩⟩,
     .columnRef ⟨2, "y", some "t2", false, ⟨.integer, false⟩⟩]
  refine ⟨?_, ?_, ?_⟩
  · rw [h.2.1 (by decide)]
    rfl
  · exact h.2.2.1 (by decide) "t2" .left (by decide)
  · exact h.2.2.2.1 "t1" (by rfl)

/-- Whether two bound expressions are both ColumnRef, the shape that makes
an Eq eligible as an equi-join key. -/
def isColumnRefPair : ScalarExpression → ScalarExpression → Bool
  | .columnRef _, .columnRef _ => true
  | _, _ => false

/-- C5: extract_join_keys pushes an Eq between two bound ColumnRefs to the
equi-key list oriented (left-table column, right-table column) by catalog
membership of the column names, swapping the textual operand order when
needed; an Eq fitting neither orientation, an Eq not between two column
refs, any other operator and any other expression are appended to the
residual filter list; And recurses into both sides left first; and
bind_join_constraint packages the keys with the residuals reduced to a
single And conjunction (none when empty) inside JoinCondition::On. -/
theorem c5_extract_join_keys (bindE : AstExpr → ScalarExpression) (lt rt : TableCatalog) :
    (∀ (l r : AstExpr) (lc rc : ColumnCatalog)
        (accum : List (ScalarExpression × ScalarExpression)) (f : List ScalarExpression),
        bindE l = .columnRef lc → bindE r = .columnRef rc →
        ((lt.contains_column lc.name && rt.contains_column rc.name) = true →
          extract_join_keys bindE lt rt (.binaryOp l .eq r) accum f
            = (accum ++ [(.columnRef lc, .columnRef rc)], f))
        ∧ ((lt.contains_column lc.name && rt.contains_column rc.name) = false →
            (lt.contains_column rc.name && rt.contains_column lc.name) = true →
            extract_join_keys bindE lt rt (.binaryOp l .eq r) accum f
              = (accum ++ [(.columnRef rc, .columnRef lc)], f))
        ∧ ((lt.contains_column lc.name && rt.contains_column rc.name) = false →
            (lt.contains_column rc.name && rt.contains_column lc.name) = false →
            extract_join_keys bindE lt rt (.binaryOp l .eq r) accum f
              = (accum, f ++ [bindE (.binaryOp l .eq r)])))
    ∧ (∀ (l r : AstExpr) (accum : List (ScalarExpression × ScalarExpression))
          (f : List ScalarExpression),
        isColumnRefPair (bindE l) (bindE r) = false →
        extract_join_keys bindE lt rt (.binaryOp l .eq r) accum f
          = (accum, f ++ [bindE (.binaryOp l .eq r)]))
    ∧ (∀ (l r : AstExpr) (accum : List (ScalarExpression × ScalarExpression))
          (f : List ScalarExpression),
        extract_join_keys bindE lt rt (.binaryOp l .and r) accum f
          = extract_join_keys bindE lt rt r
              (extract_join_keys bindE lt rt l accum f).1
              (extract_join_keys bindE lt rt l accum f).2)
    ∧ (∀ (l r : AstExpr) (op : BinaryOperator)
          (accum : List (ScalarExpression × ScalarExpression)) (f : List ScalarExpression),
        op ≠ .eq → op ≠ .and →
        extract_join_keys bindE lt rt (.binaryOp l op r) accum f
          = (accum, f ++ [bindE (.binaryOp l op r)]))
    ∧ (∀ (n : Nat) (accum : List (ScalarExpression × ScalarExpression))
          (f : List ScalarExpression),
        extract_join_keys bindE lt rt (.atom n) accum f = (accum, f ++ [bindE (.atom n)]))
    ∧ (∀ e : AstExpr,
        bind_join_constraint bindE lt rt e
          = .On (extract_join_keys bindE lt rt e [] []).1
              (reduceAndFilter (extract_join_keys bindE lt rt e [] []).2))
    ∧ reduceAndFilter [] = none
    ∧ (∀ (f0 : ScalarExpression) (fs : List ScalarExpression),
        reduceAndFilter (f0 :: fs)
          = some (fs.foldl (fun acc e => .binary .and acc e .boolean) f0)) := by
  refine ⟨?_, ?_, ?_, ?_, ?_, ?_, rfl, fun _ _ => rfl⟩
  · intro l r lc rc accum f hl hr
    refine ⟨?_, ?_, ?_⟩
    · intro h1
      simp [extract_join_keys, hl, hr, h1]
    · intro h1 h2
      simp [extract_join_keys, hl, hr, h1, h2]
    · intro h1 h2
      simp [extract_join_keys, hl, hr, h1, h2]
  · intro l r accum f h
    simp only [extract_join_keys]
    cases hbl : bindE l <;> cases hbr : bindE r <;>
      first
        | (simp [hbl, hbr]; done)
        | (rw [hbl, hbr] at h; simp [isColumnRefPair] at h)
  · intro l r accum f
    rfl
  · intro l r op accum f h1 h2
    cases op <;> first | rfl | exact absurd rfl h1 | exact absurd rfl h2
  · intro n accum f
    rfl
  · intro e
    rfl

theorem c5_extract_join_keys_witness :
    extract_join_keys
        (fun a => match a with
          | .atom 0 => .columnRef ⟨2, "y", some "t2", false, ⟨.integer, false⟩⟩
          | _ => .columnRef ⟨1, "x", some "t1", false, ⟨.integer, false⟩⟩)
        ⟨"t1", [⟨1, "x", some "t1", false, ⟨.integer, false⟩⟩]⟩
        ⟨"t2", [⟨2, "y", some "t2", false, ⟨.integer, false⟩⟩]⟩
        (.binaryOp (.atom 0) .eq (.atom 1)) [] []
      = ([(.columnRef ⟨1, "x", some "t1", false, ⟨.integer, false⟩⟩,
           .columnRef ⟨2, "y", some "t2", false, ⟨.integer, false⟩⟩)], []) := by
  have h := (c5_extract_join_keys
    (fun a => match a with
      | .atom 0 => .columnRef ⟨2, "y", some "t2", false, ⟨.integer, false⟩⟩
      | _ => .columnRef ⟨1, "x", some "t1", false, ⟨.integer, false⟩⟩)
    ⟨"t1", [⟨1, "x", some "t1", false, ⟨.integer, false⟩⟩]⟩
    ⟨"t2", [⟨2, "y", some "t2", false, ⟨.integer, false⟩⟩]⟩).1
    (.atom 0) (.atom 1)
    ⟨2, "y", some "t2", false, ⟨.integer, false⟩⟩
    ⟨1, "x", some "t1", false, ⟨.integer, false⟩⟩
    [] [] rfl rfl
  exact h.2.1 (by decide) (by decide)

end KipSQL
